import Mathlib

/-
  Verification of pyPSQC: region-partitioned feature assembly and linear
  scoring for automated prostate-segmentation quality control.

  Shallow embedding of the Python source:
  - `utils.py` (get_settings, extract_radiomics_features,
    extract_filtered_values, calculate_quality_score, classify_quality)
  - `feature_extraction.py` (feature_extraction)
  - `quality_prediction.py` (quality_prediction)

  Volumes are lists of axial slices (axis 0), each slice a list of rows of
  integer voxel values.  Real-valued quantities (intensities, scores,
  coefficients) are rationals.  The external radiomics extractor is a
  parameter.  Fallible operations return `Except String`.
-/

namespace PyPSQC

/-! ## Data model -/

abbrev Slice := List (List ℤ)

abbrev Volume := List Slice

/-- A radiomics feature vector: an insertion-ordered mapping from feature
name to scalar value (Python dicts preserve insertion order). -/
abbrev FeatureVec := List (String × ℚ)

/-- Geometry metadata of a SimpleITK image: spacing, origin, direction. -/
structure Geometry where
  spacing : ℚ × ℚ × ℚ
  origin : ℚ × ℚ × ℚ
  direction : List ℚ
  deriving DecidableEq

/-- A SimpleITK image object: geometry metadata plus voxel data. -/
structure SItkVolume where
  geom : Geometry
  data : Volume
  deriving DecidableEq

/-! ## Region partitioner (`utils.py` lines 154-197) -/

/-- `(mask_array > 0).astype(np.uint8)` (utils.py 163). -/
def binarize (m : Volume) : Volume :=
  m.map (fun s => s.map (fun row => row.map (fun v => if 0 < v then (1 : ℤ) else 0)))

/-- `mask_array.sum(axis=(1, 2))` at one slice. -/
def sliceSum (s : Slice) : ℤ := (s.map List.sum).sum

/-- `np.nonzero(mask_array.sum(axis=(1, 2)))[0]` (utils.py 166): the
axial slice indices with nonzero per-slice sum, in increasing order. -/
def nonzeroSlices (m : Volume) : List ℕ :=
  (List.range m.length).filter (fun i => sliceSum (m.getD i []) ≠ 0)

/-- The per-region slice selection of utils.py 171-179: `apex` takes the
first `floor(N/3)` entries of `nonzero_slices`, `base` the entries from
position `N - floor(N/3)` on, any other region class all of them. -/
def regionSliceIndices (regionClass : String) (nz : List ℕ) : List ℕ :=
  if regionClass = "apex" then nz.take (nz.length / 3)
  else if regionClass = "base" then nz.drop (nz.length - nz.length / 3)
  else nz

/-- An all-zero slice of the same shape (`np.zeros_like` at one slice). -/
def zeroSlice (s : Slice) : Slice := s.map (fun row => row.map (fun _ => (0 : ℤ)))

/-- utils.py 182-183: `new_mask_array = np.zeros_like(mask_array);
new_mask_array[slice_indices] = mask_array[slice_indices]`. -/
def buildRegionMask (m : Volume) (idxs : List ℕ) : Volume :=
  (List.range m.length).map (fun i =>
    if i ∈ idxs then m.getD i [] else zeroSlice (m.getD i []))

/-- utils.py 158-159: `mask.SetDirection(image.GetDirection());
mask.SetOrigin(image.GetOrigin())`.  Spacing is not touched. -/
def alignMaskGeometry (imgGeom maskGeom : Geometry) : Geometry :=
  ⟨maskGeom.spacing, imgGeom.origin, imgGeom.direction⟩

/-- The mask after the preparation of utils.py 154-159 (the uint8 cast
leaves the voxel data of a binary mask unchanged; geometry is realigned). -/
def alignMask (image mask : SItkVolume) : SItkVolume :=
  ⟨alignMaskGeometry image.geom mask.geom, mask.data⟩

/-- One region mask as built by the loop body of utils.py 171-187:
region slices of the binarized, geometry-aligned mask, with
`CopyInformation` copying the geometry of the aligned mask. -/
def regionMaskVolume (image mask : SItkVolume) (regionClass : String) : SItkVolume :=
  let m := alignMask image mask
  let ma := binarize m.data
  ⟨m.geom, buildRegionMask ma (regionSliceIndices regionClass (nonzeroSlices ma))⟩

/-- The region class list of feature_extraction.py line 16. -/
def regionClasses : List String := ["wholeprostate", "apex", "base"]

/-- The feature class list of feature_extraction.py lines 17-18. -/
def featureClasses : List String :=
  ["firstorder", "shape", "glcm", "glrlm", "glszm", "ngtdm", "gldm"]

/-- A volume whose voxels are all 0 or 1. -/
abbrev IsBinaryVolume (m : Volume) : Prop :=
  ∀ s ∈ m, ∀ row ∈ s, ∀ v ∈ row, v = 0 ∨ v = 1

/-! ## Helper lemmas -/

theorem map_eq_self_of {α : Type} (l : List α) (f : α → α)
    (h : ∀ a ∈ l, f a = a) : l.map f = l := by
  induction l with
  | nil => rfl
  | cons x xs ih =>
    rw [List.map_cons, h x (List.mem_cons_self x xs),
      ih (fun a ha => h a (List.mem_cons_of_mem _ ha))]

theorem map_eq_self_mp {α : Type} (f : α → α) :
    ∀ l : List α, l.map f = l → ∀ a ∈ l, f a = a := by
  intro l
  induction l with
  | nil => exact fun _ a ha => absurd ha (List.not_mem_nil a)
  | cons x xs ih =>
    intro h a ha
    rw [List.map_cons] at h
    injection h with h1 h2
    rcases List.mem_cons.mp ha with rfl | ha2
    · exact h1
    · exact ih h2 a ha2

theorem getD_range_map {α : Type} (f : ℕ → α) (n i : ℕ) (h : i < n) (d : α) :
    ((List.range n).map f).getD i d = f i := by
  rw [List.getD_eq_getElem _ _ (by simpa using h)]
  rw [List.getElem_map, List.getElem_range]

theorem binarize_eq_self (m : Volume) (hbin : IsBinaryVolume m) :
    binarize m = m := by
  unfold binarize
  refine map_eq_self_of _ _ (fun s hs => ?_)
  refine map_eq_self_of _ _ (fun row hrow => ?_)
  refine map_eq_self_of _ _ (fun v hv => ?_)
  rcases hbin s hs row hrow v hv with rfl | rfl
  · rfl
  · rfl

theorem regionSliceIndices_subset (r : String) (nz : List ℕ) :
    regionSliceIndices r nz ⊆ nz := by
  unfold regionSliceIndices
  split
  · exact List.take_subset _ _
  · split
    · exact List.drop_subset _ _
    · exact fun a ha => ha

theorem mem_nonzeroSlices (m : Volume) (i : ℕ) (h : i ∈ nonzeroSlices m) :
    i < m.length ∧ sliceSum (m.getD i []) ≠ 0 := by
  unfold nonzeroSlices at h
  have h2 := List.mem_filter.mp h
  exact ⟨List.mem_range.mp h2.1, of_decide_eq_true h2.2⟩

/-! ## Claims about the region partitioner -/

/-- Claim C1: for a binary mask, the partitioner takes whole = all
nonzero slice indices, apex = the first `⌊N/3⌋` of them, base = those
from position `N - ⌊N/3⌋` on; each region mask is full-size, equals the
mask on the selected slices (which are nonzero) and is zero elsewhere. -/
theorem claim1_region_partitioner (m : Volume) (hbin : IsBinaryVolume m) :
    binarize m = m ∧
    regionSliceIndices "wholeprostate" (nonzeroSlices m) = nonzeroSlices m ∧
    regionSliceIndices "apex" (nonzeroSlices m) =
      (nonzeroSlices m).take ((nonzeroSlices m).length / 3) ∧
    regionSliceIndices "base" (nonzeroSlices m) =
      (nonzeroSlices m).drop
        ((nonzeroSlices m).length - (nonzeroSlices m).length / 3) ∧
    ∀ r ∈ regionClasses,
      (buildRegionMask m (regionSliceIndices r (nonzeroSlices m))).length = m.length ∧
      ∀ i, i < m.length →
        (i ∈ regionSliceIndices r (nonzeroSlices m) →
          (buildRegionMask m (regionSliceIndices r (nonzeroSlices m))).getD i [] =
            m.getD i [] ∧
          sliceSum ((buildRegionMask m
            (regionSliceIndices r (nonzeroSlices m))).getD i []) ≠ 0) ∧
        (i ∉ regionSliceIndices r (nonzeroSlices m) →
          (buildRegionMask m (regionSliceIndices r (nonzeroSlices m))).getD i [] =
            zeroSlice (m.getD i [])) := by
  refine ⟨binarize_eq_self m hbin, by unfold regionSliceIndices; rw [if_neg (by decide), if_neg (by decide)],
    by unfold regionSliceIndices; rw [if_pos rfl],
    by unfold regionSliceIndices; rw [if_neg (by decide), if_pos rfl], ?_⟩
  intro r _
  constructor
  · unfold buildRegionMask
    rw [List.length_map, List.length_range]
  · intro i hi
    constructor
    · intro hmem
      have hget : (buildRegionMask m (regionSliceIndices r (nonzeroSlices m))).getD i [] =
          m.getD i [] := by
        unfold buildRegionMask
        rw [getD_range_map _ _ _ hi, if_pos hmem]
      refine ⟨hget, ?_⟩
      rw [hget]
      exact (mem_nonzeroSlices m i (regionSliceIndices_subset r _ hmem)).2
    · intro hmem
      unfold buildRegionMask
      rw [getD_range_map _ _ _ hi, if_neg hmem]

/-- Claim C1 witness: a concrete binary mask with four nonzero slices
(N = 4, apex gets one slice). -/
theorem claim1_region_partitioner_witness :
    regionSliceIndices "apex"
        (nonzeroSlices [[[0, 1]], [[1, 0]], [[0, 0]], [[0, 1]], [[1, 1]]]) =
      (nonzeroSlices [[[0, 1]], [[1, 0]], [[0, 0]], [[0, 1]], [[1, 1]]]).take
        ((nonzeroSlices [[[0, 1]], [[1, 0]], [[0, 0]], [[0, 1]], [[1, 1]]]).length / 3) :=
  (claim1_region_partitioner [[[0, 1]], [[1, 0]], [[0, 0]], [[0, 1]], [[1, 1]]]
    (by decide)).2.2.1

/-- Claim C8 counterexample: a binary mask with N = 2 nonzero slices.
The claim asserts base "may still include all N nonzero slices", but the
code yields `nonzero_slices[N - 0:]`, the empty selection, so the base
region contains no slice at all. -/
theorem claim8_counterexample :
    nonzeroSlices [[[1]], [[1]]] = [0, 1] ∧
    regionSliceIndices "apex" (nonzeroSlices [[[1]], [[1]]]) = [] ∧
    regionSliceIndices "base" (nonzeroSlices [[[1]], [[1]]]) = [] ∧
    regionSliceIndices "base" (nonzeroSlices [[[1]], [[1]]]) ≠
      nonzeroSlices [[[1]], [[1]]] := by
  refine ⟨by decide, by decide, by decide, by decide⟩

/-- Claim C8 (amended): for every mask whose nonzero-slice count N is
less than 3, the apex region is empty (`⌊N/3⌋ = 0`) and the base region
is empty as well, since it starts at position `N - 0 = N`, past the end
of the nonzero-slice sequence. -/
theorem claim8_small_mask_regions (m : Volume)
    (h : (nonzeroSlices m).length < 3) :
    regionSliceIndices "apex" (nonzeroSlices m) = [] ∧
    regionSliceIndices "base" (nonzeroSlices m) = [] := by
  have h3 : (nonzeroSlices m).length / 3 = 0 := Nat.div_eq_of_lt h
  constructor
  · unfold regionSliceIndices
    rw [if_pos rfl, h3, List.take_zero]
  · unfold regionSliceIndices
    rw [if_neg (by decide), if_pos rfl, h3, Nat.sub_zero, List.drop_length]

/-- Claim C8 witness: a mask with two nonzero slices has empty apex and
empty base. -/
theorem claim8_small_mask_regions_witness :
    regionSliceIndices "apex" (nonzeroSlices [[[1]], [[1]], [[0]]]) = [] ∧
    regionSliceIndices "base" (nonzeroSlices [[[1]], [[1]], [[0]]]) = [] :=
  claim8_small_mask_regions [[[1]], [[1]], [[0]]] (by decide)

/-- Claim C9 counterexample: the code forces only direction and origin
onto the mask (utils.py 158-159); it never sets the spacing.  For an
image with spacing (1,1,3) and a mask with spacing (1,1,4) the region
mask built from them still carries spacing (1,1,4). -/
theorem claim9_counterexample :
    (regionMaskVolume ⟨⟨(1, 1, 3), (0, 0, 0), [1]⟩, [[[1]]]⟩
        ⟨⟨(1, 1, 4), (9, 9, 9), [2]⟩, [[[1]]]⟩ "wholeprostate").geom.spacing =
      (1, 1, 4) ∧
    ((1, 1, 4) : ℚ × ℚ × ℚ) ≠ (1, 1, 3) :=
  ⟨rfl, by decide⟩

/-- Claim C9 (amended): before any region mask is built, the origin
and direction of the mask are forced to equal those of the image, and
every region mask carries them; the spacing of the mask is left
unchanged, not forced. -/
theorem claim9_geometry_alignment (image mask : SItkVolume) (r : String) :
    (regionMaskVolume image mask r).geom.origin = image.geom.origin ∧
    (regionMaskVolume image mask r).geom.direction = image.geom.direction ∧
    (regionMaskVolume image mask r).geom.spacing = mask.geom.spacing :=
  ⟨rfl, rfl, rfl⟩

/-! ## Extraction settings calculator (`utils.py` lines 44-70) -/

/-- The radiomics settings dict built by `get_settings`: exactly a bin
width and the `correctMask` flag. -/
structure Settings where
  binWidth : ℚ
  correctMask : Bool
  deriving DecidableEq

/-- `np.sum(mask_array_in)` over an image/mask voxel pairing: each voxel
is an (intensity, mask value) pair, so the two arrays share a shape. -/
def maskSum (voxels : List (ℚ × ℤ)) : ℤ := (voxels.map Prod.snd).sum

/-- `image_array_in[mask_array_in != 0]` (utils.py 62-63). -/
def maskedIntensities (voxels : List (ℚ × ℤ)) : List ℚ :=
  (voxels.filter (fun p => p.2 ≠ 0)).map Prod.fst

/-- `get_settings` (utils.py 44-70): raise when the mask sum is 0, else
`binWidth = (max - min of the masked intensities) / nr_bins` and
`correctMask = True`.  `np.max`/`np.min` of an empty selection also
raise in numpy, modelled by the second error branch. -/
def get_settings (voxels : List (ℚ × ℤ)) (nr_bins : ℚ) : Except String Settings :=
  if maskSum voxels = 0 then
    Except.error "Mask is empty. Cannot compute intensity range."
  else
    match maskedIntensities voxels with
    | [] => Except.error "zero-size array to reduction operation"
    | x :: xs => Except.ok ⟨(xs.foldl max x - xs.foldl min x) / nr_bins, true⟩

/-! ## Feature vector assembler (`utils.py` 141-224, `feature_extraction.py`) -/

/-- `"diagnostics" in var_key`: case-sensitive substring containment. -/
def containsDiagnostics (name : String) : Bool :=
  decide ("diagnostics".toList <:+: name.toList)

/-- The dict comprehension of utils.py 212-213: keep the entries whose
name does not contain "diagnostics". -/
def filterDiagnostics (fv : FeatureVec) : FeatureVec :=
  fv.filter (fun p => !containsDiagnostics p.1)

/-- `extract_filtered_values` (utils.py 200-224) with its in-place dict
mutation made explicit: first component is the dictionary of the caller after
the call (every inner feature vector reassigned to its filtered form),
second the flattened values array. -/
def extractFilteredValuesSt (d : List (String × FeatureVec)) :
    List (String × FeatureVec) × List ℚ :=
  let d2 := d.map (fun p => (p.1, filterDiagnostics p.2))
  (d2, (d2.map (fun p => p.2.map Prod.snd)).flatten)

/-- The return value of `extract_filtered_values`. -/
def extract_filtered_values (d : List (String × FeatureVec)) : List ℚ :=
  (extractFilteredValuesSt d).2

/-- `extract_radiomics_features` (utils.py 141-197) with the external
radiomics computation of `extract_features` as the `extractFeatures`
parameter: binarize the mask, then for each region class build the
region mask and store one feature vector per feature class under a key formed
from the region class, an underscore, and the feature class, in loop order (Python dicts preserve
insertion order; the keys are pairwise distinct). -/
def extract_radiomics_features
    (extractFeatures : Volume → Volume → String → FeatureVec)
    (image mask : Volume) (region_classes feature_classes : List String) :
    List (String × FeatureVec) :=
  let mask_array := binarize mask
  let nz := nonzeroSlices mask_array
  region_classes.flatMap (fun region_class =>
    let new_mask := buildRegionMask mask_array (regionSliceIndices region_class nz)
    feature_classes.map (fun feature_class =>
      (region_class ++ "_" ++ feature_class, extractFeatures image new_mask feature_class)))

/-- `feature_extraction` (feature_extraction.py 4-28): the fixed region
and feature class lists, then extraction, then filtering/flattening. -/
def feature_extraction (extractFeatures : Volume → Volume → String → FeatureVec)
    (image mask : Volume) : List ℚ :=
  extract_filtered_values
    (extract_radiomics_features extractFeatures image mask regionClasses featureClasses)

/-! ## Helper lemmas for foldl max / min -/

theorem le_foldl_max (xs : List ℚ) (x : ℚ) : x ≤ xs.foldl max x := by
  induction xs generalizing x with
  | nil => exact le_refl x
  | cons y ys ih => exact le_trans (le_max_left x y) (ih (max x y))

theorem mem_le_foldl_max (xs : List ℚ) (x y : ℚ) (hy : y ∈ xs) :
    y ≤ xs.foldl max x := by
  induction xs generalizing x with
  | nil => exact absurd hy (List.not_mem_nil y)
  | cons z zs ih =>
    rw [List.foldl_cons]
    rcases List.mem_cons.mp hy with rfl | h
    · exact le_trans (le_max_right x y) (le_foldl_max zs _)
    · exact ih _ h

theorem foldl_max_mem (xs : List ℚ) (x : ℚ) :
    xs.foldl max x = x ∨ xs.foldl max x ∈ xs := by
  induction xs generalizing x with
  | nil => exact Or.inl rfl
  | cons y ys ih =>
    rw [List.foldl_cons]
    rcases ih (max x y) with h | h
    · rcases max_choice x y with hx | hy
      · exact Or.inl (by rw [h, hx])
      · exact Or.inr (by rw [h, hy]; exact List.mem_cons_self _ _)
    · exact Or.inr (List.mem_cons_of_mem _ h)

theorem foldl_min_le (xs : List ℚ) (x : ℚ) : xs.foldl min x ≤ x := by
  induction xs generalizing x with
  | nil => exact le_refl x
  | cons y ys ih => exact le_trans (ih (min x y)) (min_le_left x y)

theorem foldl_min_le_mem (xs : List ℚ) (x y : ℚ) (hy : y ∈ xs) :
    xs.foldl min x ≤ y := by
  induction xs generalizing x with
  | nil => exact absurd hy (List.not_mem_nil y)
  | cons z zs ih =>
    rw [List.foldl_cons]
    rcases List.mem_cons.mp hy with rfl | h
    · exact le_trans (foldl_min_le zs _) (min_le_right x y)
    · exact ih _ h

theorem foldl_min_mem (xs : List ℚ) (x : ℚ) :
    xs.foldl min x = x ∨ xs.foldl min x ∈ xs := by
  induction xs generalizing x with
  | nil => exact Or.inl rfl
  | cons y ys ih =>
    rw [List.foldl_cons]
    rcases ih (min x y) with h | h
    · rcases min_choice x y with hx | hy
      · exact Or.inl (by rw [h, hx])
      · exact Or.inr (by rw [h, hy]; exact List.mem_cons_self _ _)
    · exact Or.inr (List.mem_cons_of_mem _ h)

/-! ## Claims about settings and assembly -/

/-- Claim C7: `get_settings` with 64 bins errors exactly when the mask
sum is 0; otherwise it returns a settings object whose `binWidth` is
(max − min of the mask-selected intensities) / 64 and whose
`correctMask` is true, and nothing else. -/
theorem claim7_settings (voxels : List (ℚ × ℤ)) :
    (maskSum voxels = 0 → ∃ e, get_settings voxels 64 = Except.error e) ∧
    (maskSum voxels ≠ 0 →
      ∃ M mn, M ∈ maskedIntensities voxels ∧ mn ∈ maskedIntensities voxels ∧
        (∀ y ∈ maskedIntensities voxels, y ≤ M ∧ mn ≤ y) ∧
        get_settings voxels 64 = Except.ok ⟨(M - mn) / 64, true⟩) := by
  constructor
  · intro h0
    exact ⟨_, by unfold get_settings; rw [if_pos h0]⟩
  · intro h0
    have hne : maskedIntensities voxels ≠ [] := by
      intro hnil
      apply h0
      unfold maskedIntensities at hnil
      have hall : ∀ p ∈ voxels, p.2 = 0 := by
        intro p hp
        have := List.filter_eq_nil_iff.mp (List.map_eq_nil_iff.mp hnil) p hp
        simpa using this
      unfold maskSum
      refine List.sum_eq_zero (fun z hz => ?_)
      rcases List.mem_map.mp hz with ⟨p, hp, rfl⟩
      exact hall p hp
    rcases hsel : maskedIntensities voxels with _ | ⟨x, xs⟩
    · exact absurd hsel hne
    · refine ⟨xs.foldl max x, xs.foldl min x, ?_, ?_, ?_, ?_⟩
      · rcases foldl_max_mem xs x with h | h
        · rw [h]; exact List.mem_cons_self _ _
        · exact List.mem_cons_of_mem _ h
      · rcases foldl_min_mem xs x with h | h
        · rw [h]; exact List.mem_cons_self _ _
        · exact List.mem_cons_of_mem _ h
      · intro y hy
        rcases List.mem_cons.mp hy with rfl | h
        · exact ⟨le_foldl_max xs y, foldl_min_le xs y⟩
        · exact ⟨mem_le_foldl_max xs x y h, foldl_min_le_mem xs x y h⟩
      · unfold get_settings
        rw [if_neg h0, hsel]

/-- Claim C7 witness: three foreground voxels with intensities 5, 9, 2
(and one background voxel) give binWidth (9 − 2) / 64, correctMask true. -/
theorem claim7_settings_witness :
    ∃ M mn, M ∈ maskedIntensities [(5, 1), (9, 2), (2, 1), (7, 0)] ∧
      mn ∈ maskedIntensities [(5, 1), (9, 2), (2, 1), (7, 0)] ∧
      (∀ y ∈ maskedIntensities [(5, 1), (9, 2), (2, 1), (7, 0)], y ≤ M ∧ mn ≤ y) ∧
      get_settings [(5, 1), (9, 2), (2, 1), (7, 0)] 64 = Except.ok ⟨(M - mn) / 64, true⟩ :=
  (claim7_settings [(5, 1), (9, 2), (2, 1), (7, 0)]).2 (by decide)

/-- Claim C6: an entry survives the diagnostics filter iff it was in the
feature vector and its name does not contain the substring
"diagnostics"; retained entries keep their values. -/
theorem claim6_diagnostics_filter (fv : FeatureVec) (name : String) (val : ℚ) :
    (name, val) ∈ filterDiagnostics fv ↔
      ((name, val) ∈ fv ∧ ¬ ("diagnostics".toList <:+: name.toList)) := by
  simp [filterDiagnostics, containsDiagnostics, List.mem_filter]

/-- Claim C3: the assembled dictionary holds exactly the 21 keys in the
fixed region-outer, feature-class-inner order of feature_extraction.py,
and for every extractor the flattened PredictorVector follows that key
insertion order, each retained feature vector in native order. -/
theorem claim3_flattening_order
    (extractFeatures : Volume → Volume → String → FeatureVec) (image mask : Volume) :
    (extract_radiomics_features extractFeatures image mask
        regionClasses featureClasses).map Prod.fst =
      ["wholeprostate_firstorder", "wholeprostate_shape", "wholeprostate_glcm",
       "wholeprostate_glrlm", "wholeprostate_glszm", "wholeprostate_ngtdm",
       "wholeprostate_gldm", "apex_firstorder", "apex_shape", "apex_glcm",
       "apex_glrlm", "apex_glszm", "apex_ngtdm", "apex_gldm",
       "base_firstorder", "base_shape", "base_glcm", "base_glrlm",
       "base_glszm", "base_ngtdm", "base_gldm"] ∧
    feature_extraction extractFeatures image mask =
      regionClasses.flatMap (fun r =>
        featureClasses.flatMap (fun f =>
          (filterDiagnostics (extractFeatures image
            (buildRegionMask (binarize mask)
              (regionSliceIndices r (nonzeroSlices (binarize mask)))) f)).map
            Prod.snd)) := by
  constructor
  · simp [extract_radiomics_features, regionClasses, featureClasses]
  · simp [feature_extraction, extract_filtered_values, extractFilteredValuesSt,
      extract_radiomics_features, regionClasses, featureClasses]

/-- Claim C10: `extract_filtered_values` mutates the dictionary of the caller
in place: afterwards no inner feature vector of the argument retains a
"diagnostics" entry, and whenever the argument held one the argument is
changed by the call. -/
theorem claim10_inplace_mutation (d : List (String × FeatureVec)) :
    (∀ p ∈ (extractFilteredValuesSt d).1, ∀ q ∈ p.2,
      ¬ ("diagnostics".toList <:+: q.1.toList)) ∧
    ((∃ p ∈ d, ∃ q ∈ p.2, "diagnostics".toList <:+: q.1.toList) →
      (extractFilteredValuesSt d).1 ≠ d) := by
  constructor
  · intro p hp q hq
    rcases List.mem_map.mp hp with ⟨a, _, rfl⟩
    have h2 := (List.mem_filter.mp hq).2
    simp [containsDiagnostics] at h2
    exact h2
  · rintro ⟨p, hp, q, hq, hdiag⟩ heq
    have hfix := map_eq_self_mp _ d heq p hp
    have hsnd : filterDiagnostics p.2 = p.2 := congrArg Prod.snd hfix
    have hall := List.filter_eq_self.mp hsnd q hq
    simp [containsDiagnostics] at hall
    exact hall hdiag

/-- Claim C10 witness: a dictionary holding one diagnostics entry is not
left unchanged by the call. -/
theorem claim10_inplace_mutation_witness :
    (extractFilteredValuesSt [("wholeprostate_firstorder",
        [("diagnostics_Versions_PyRadiomics", 1), ("firstorder_Mean", 5)])]).1 ≠
      [("wholeprostate_firstorder",
        [("diagnostics_Versions_PyRadiomics", 1), ("firstorder_Mean", 5)])] :=
  (claim10_inplace_mutation _).2
    ⟨("wholeprostate_firstorder",
        [("diagnostics_Versions_PyRadiomics", 1), ("firstorder_Mean", 5)]),
      by simp, ("diagnostics_Versions_PyRadiomics", 1), by simp, by decide⟩

/-! ## Scoring engine (`utils.py` lines 254-298, `quality_prediction.py`) -/

/-- `np.dot` on two 1-D arrays: sum of elementwise products; numpy raises
`ValueError` ("shapes not aligned") when the lengths differ, modelled as
`Except.error`. -/
def npDot (a b : List ℚ) : Except String ℚ :=
  if a.length = b.length then Except.ok (List.zipWith (fun x y => x * y) a b).sum
  else Except.error "shapes not aligned"

/-- `calculate_quality_score` (utils.py 254-280): dot product plus
intercept, capped by `max(0, min(quality_score, 100))`. -/
def calculate_quality_score (predictors coefs : List ℚ) (intercept : ℚ) :
    Except String ℚ :=
  (npDot predictors coefs).map (fun d => max 0 (min (d + intercept) 100))

/-- `classify_quality` (utils.py 283-298). -/
def classify_quality (quality_score quality_class_threshold : ℚ) : String :=
  if quality_score < quality_class_threshold then "NOT Acceptable" else "Acceptable"

/-- Python `round(x, 2)`: round to two decimal places. -/
def round2 (q : ℚ) : ℚ := ((round (q * 100) : ℤ) : ℚ) / 100

/-- The hardcoded LASSO intercept of `quality_prediction.py` line 24. -/
def modelIntercept : ℚ := -5896493539841075 / 10000000000000

/-- `quality_prediction` (quality_prediction.py 27-34) with the
file-loaded coefficient list and the intercept as parameters: compute the
capped score, round it to 2 decimals, classify the rounded score. -/
def quality_prediction_core (features_values coefs : List ℚ)
    (intercept quality_class_threshold : ℚ) : Except String (ℚ × String) :=
  (calculate_quality_score features_values coefs intercept).map (fun qs =>
    (round2 qs, classify_quality (round2 qs) quality_class_threshold))

/-- `quality_prediction` as shipped: intercept fixed to `modelIntercept`. -/
def quality_prediction (features_values coefs : List ℚ)
    (quality_class_threshold : ℚ) : Except String (ℚ × String) :=
  quality_prediction_core features_values coefs modelIntercept quality_class_threshold

/-! ## Claims about the scoring engine -/

/-- Claim C2: for predictor and coefficient lists of equal length and any
intercept, the returned quality score equals
`round(clamp(dot(predictors, coefs) + intercept, 0, 100), 2)`. -/
theorem claim2_score_formula (predictors coefs : List ℚ)
    (intercept threshold : ℚ) (h : predictors.length = coefs.length) :
    (quality_prediction_core predictors coefs intercept threshold).map Prod.fst =
      Except.ok (round2 (max 0
        (min ((List.zipWith (fun x y => x * y) predictors coefs).sum + intercept) 100))) := by
  simp [quality_prediction_core, calculate_quality_score, npDot, h, Except.map]

/-- Claim C2 witness: the end-to-end example of the spec
predictors = [10, 20, 5], coefficients = [1, -1, 2], intercept = 50. -/
theorem claim2_score_formula_witness :
    (quality_prediction_core [10, 20, 5] [1, -1, 2] 50 85).map Prod.fst =
      Except.ok (round2 (max 0
        (min ((List.zipWith (fun x y => x * y) [(10 : ℚ), 20, 5] [1, -1, 2]).sum + 50) 100))) :=
  claim2_score_formula [10, 20, 5] [1, -1, 2] 50 85 rfl

/-- Claim C4: with a threshold in [0, 100], classification returns
"Acceptable" iff score ≥ threshold and "NOT Acceptable" iff
score < threshold; equality classifies as Acceptable. -/
theorem claim4_classification_boundary (s t : ℚ) (h0 : 0 ≤ t) (h1 : t ≤ 100) :
    (classify_quality s t = "Acceptable" ↔ t ≤ s) ∧
    (classify_quality s t = "NOT Acceptable" ↔ s < t) := by
  unfold classify_quality
  rcases lt_or_le s t with h | h
  · rw [if_pos h]
    refine ⟨⟨fun he => absurd he (by decide), fun hts => absurd hts (not_le.mpr h)⟩,
      ⟨fun _ => h, fun _ => rfl⟩⟩
  · rw [if_neg (not_lt.mpr h)]
    exact ⟨⟨fun _ => h, fun _ => rfl⟩,
      ⟨fun he => absurd he (by decide), fun hst => absurd hst (not_lt.mpr h)⟩⟩

/-- Claim C4 witness: at score 85 and threshold 85 the boundary is
inclusive on the Acceptable side. -/
theorem claim4_classification_boundary_witness :
    (classify_quality 85 85 = "Acceptable" ↔ (85 : ℚ) ≤ 85) ∧
    (classify_quality 85 85 = "NOT Acceptable" ↔ (85 : ℚ) < 85) :=
  claim4_classification_boundary 85 85 (by norm_num) (by norm_num)

/-- Claim C5: on a length mismatch scoring produces a typed error and
never returns a score. -/
theorem claim5_length_mismatch (predictors coefs : List ℚ) (intercept : ℚ)
    (h : predictors.length ≠ coefs.length) :
    (∃ e, calculate_quality_score predictors coefs intercept = Except.error e) ∧
    ∀ q, calculate_quality_score predictors coefs intercept ≠ Except.ok q := by
  unfold calculate_quality_score npDot
  rw [if_neg h]
  exact ⟨⟨_, rfl⟩, fun q hq => by simp [Except.map] at hq⟩

/-- Claim C5 witness: a 2-long predictor list against a 1-long
coefficient list errors out. -/
theorem claim5_length_mismatch_witness :
    (∃ e, calculate_quality_score [1, 2] [1] 0 = Except.error e) ∧
    ∀ q, calculate_quality_score [1, 2] [1] 0 ≠ Except.ok q :=
  claim5_length_mismatch [1, 2] [1] 0 (by decide)

end PyPSQC
